import Mathlib

/-!
Verification of `video_inference.py` (COMISR video super-resolution driver).

The file embeds the orchestration logic of the script — checkpoint restore
map construction, the `VideoReader` iterator, the per-frame session loop
(warp update / generator run / conditional write), frame normalization,
output clipping, shape computation, and the temp-file/ffmpeg finishing
sequence — as executable Lean definitions, and proves the specification
claims about them.  The neural networks (`generator_f`, `fnet`) are opaque
pretrained graphs and are modelled as abstract functions.
-/

namespace VSR

/-! ### A small model of Python `re.match` for the patterns that occur

`process_video` calls `re.match(v.name, '.*global_step.*')`.  The patterns
that can reach the matcher here are variable names (literal characters) and
the string `'.*global_step.*'` (literals, `.` and `*`), so a matcher for
literals, the `.` wildcard and postfix `*` is a faithful model.  `re.match`
anchors at the start of the string and succeeds on any prefix match. -/

inductive RAtom where
  | lit (c : Char)
  | anyChar
deriving DecidableEq

def atomMatches : RAtom → Char → Bool
  | .lit c, d => c = d
  | .anyChar, _ => true

def mkRAtom (c : Char) : RAtom :=
  if c = '.' then .anyChar else .lit c

/-- Parse a pattern into atoms, each flagged with whether a `*` follows it. -/
def parsePat : List Char → List (RAtom × Bool)
  | [] => []
  | c :: '*' :: rest => (mkRAtom c, true) :: parsePat rest
  | c :: rest => (mkRAtom c, false) :: parsePat rest

/-- Backtracking matcher (prefix semantics, fuel-bounded so that it reduces
in the kernel; the fuel chosen in `reMatch` is always sufficient). -/
def matchAtoms : Nat → List (RAtom × Bool) → List Char → Bool
  | 0, _, _ => false
  | _ + 1, [], _ => true
  | fuel + 1, (a, false) :: ps, cs =>
    match cs with
    | [] => false
    | c :: cs' => atomMatches a c && matchAtoms fuel ps cs'
  | fuel + 1, (a, true) :: ps, cs =>
    matchAtoms fuel ps cs ||
      (match cs with
       | [] => false
       | c :: cs' => atomMatches a c && matchAtoms fuel ((a, true) :: ps) cs')

/-- Model of the truthiness of Python `re.match(pat, s)`. -/
def reMatch (pat s : String) : Bool :=
  let ps := parsePat pat.toList
  matchAtoms ((ps.length + 1) * (s.length + 1) + 1) ps s.toList

/-! ### The checkpoint restore map (`process_video`, lines 289–299)

```python
restore_vars_dict = {}
if use_ema:
    for v in var_list:
        if re.match(v.name, '.*global_step.*'):
            restore_vars_dict[v.name[:-2]] = v
        else:
            restore_vars_dict[v.name[:-2] + '/ExponentialMovingAverage'] = v
```
-/

/-- Python `s[:-2]`. -/
def nameDrop2 (s : String) : String :=
  (s.toList.take (s.length - 2)).asString

/-- The checkpoint key the code computes for a trainable variable named
`name` when `use_ema` is true.  Note the code passes `v.name` as the
*pattern* argument of `re.match` and the literal `'.*global_step.*'` as the
*string* argument. -/
def restoreKey (name : String) : String :=
  if reMatch name ".*global_step.*" then nameDrop2 name
  else nameDrop2 name ++ "/ExponentialMovingAverage"

/-- The restore dictionary, as an association list over the variable names
in `var_list` (key, variable name). -/
def restore_vars_dict (var_list : List String) : List (String × String) :=
  var_list.map (fun v => (restoreKey v, v))

/-- The checkpoint key as the spec describes it: a variable *whose name
matches the global-step pattern* keeps its own (stripped) name, every other
variable gets the `/ExponentialMovingAverage` suffix.  This is
`re.match('.*global_step.*', v.name)`, i.e. the arguments in the intended
order. -/
def restoreKeyIntended (name : String) : String :=
  if reMatch ".*global_step.*" name then nameDrop2 name
  else nameDrop2 name ++ "/ExponentialMovingAverage"

/-! ### The per-frame session loop (`process_video`, lines 233–366)

The graph holds three non-trainable state variables, zero-initialized:
`pre_inputs` (previous low-res input), `pre_gen` (previous deprocessed
generator output), `pre_warp` (flow-warped previous output).  Per frame the
loop runs `before_ops` (except for the first frame) and then `outputs`.
The two networks are opaque pretrained graphs, modelled as abstract
functions of exactly the tensors the session reads:

* `outputs` computes `generator_f` on `inputs_raw` and `pre_warp`
  (via `space_to_depth`/`concat`), assigns `pre_inputs := inputs_raw` and
  `pre_gen := deprocess(gen_output)`, and returns the new `pre_gen`;
* `before_ops` computes the flow from `pre_inputs` and `inputs_raw`
  (`fnet` plus upscaling), warps `pre_gen` by it, adds the detail term, and
  assigns the result to `pre_warp`. -/

structure Model (α β : Type) where
  generator : α → β → β
  flowWarp : α → α → β → β
  zeroLR : α
  zeroHR : β

structure GraphState (α β : Type) where
  pre_inputs : α
  pre_gen : β
  pre_warp : β

/-- Observable events of one run of `process_video`'s session. -/
inductive Ev where
  | buildGraph
  | read (i : Nat)
  | runBefore (i : Nat)
  | runOutputs (i : Nat)
  | write (i : Nat)
deriving DecidableEq

/-- `sess.run(before_ops, feed_dict)` with `inputs_raw ↦ x`. -/
def before_ops {α β : Type} (m : Model α β) (x : α) (s : GraphState α β) :
    GraphState α β :=
  { s with pre_warp := m.flowWarp s.pre_inputs x s.pre_gen }

/-- `sess.run(outputs, feed_dict)` with `inputs_raw ↦ x`: returns the new
`pre_gen` and the updated state. -/
def run_outputs {α β : Type} (m : Model α β) (x : α) (s : GraphState α β) :
    β × GraphState α β :=
  let g := m.generator x s.pre_warp
  (g, ⟨x, g, s.pre_warp⟩)

/-- The events emitted while processing the frame with loop index `i`. -/
def frameBlock (i : Nat) : List Ev :=
  Ev.read i ::
    ((if i = 0 then [] else [Ev.runBefore i]) ++
      Ev.runOutputs i :: (if 5 ≤ i then [Ev.write i] else []))

structure LoopResult (α β : Type) where
  outs : List β
  written : List β
  trace : List Ev
  final : GraphState α β

/-- The frame loop (`for i, frame in enumerate(video_reader): ...`),
started at loop index `i` in state `s`.  `outs` collects every
`sess.run(outputs, ...)` result; `written` collects the frames passed to
`writer.write` (loop index `≥ 5` only); `trace` records the events. -/
def runFrames {α β : Type} (m : Model α β) :
    Nat → List α → GraphState α β → LoopResult α β
  | _, [], s => ⟨[], [], [], s⟩
  | i, x :: xs, s =>
    let s1 := if i = 0 then s else before_ops m x s
    let p := run_outputs m x s1
    let rest := runFrames m (i + 1) xs p.2
    ⟨p.1 :: rest.outs,
     (if 5 ≤ i then [p.1] else []) ++ rest.written,
     frameBlock i ++ rest.trace,
     rest.final⟩

/-- `init_op` zero-initializes the three state variables (the checkpoint
restore only touches trainable variables). -/
def initState {α β : Type} (m : Model α β) : GraphState α β :=
  ⟨m.zeroLR, m.zeroHR, m.zeroHR⟩

/-- The whole frame loop of `process_video`, on the frames the reader
yields. -/
def processLoop {α β : Type} (m : Model α β) (frames : List α) :
    LoopResult α β :=
  runFrames m 0 frames (initState m)

/-- The full session trace: the graph is built once, before the loop. -/
def processVideoTrace {α β : Type} (m : Model α β) (frames : List α) :
    List Ev :=
  Ev.buildGraph :: (processLoop m frames).trace

/-- The event trace of the loop as a pure function of the frame count. -/
def loopTrace (n : Nat) : List Ev :=
  (List.range n).flatMap frameBlock

/-! ### `VideoReader` (lines 68–112)

`cv2.VideoCapture` is modelled by its metadata frame count (which is what
`CAP_PROP_FRAME_COUNT` reports), the number of frames the backend can
actually decode, and a position. -/

structure Cap where
  frame_count : Int
  decodable : Int
  pos : Int

/-- `cap.read()`: succeeds exactly while the position is below the number
of decodable frames. -/
def Cap.read (c : Cap) : Bool × Cap :=
  if c.pos < c.decodable then (true, { c with pos := c.pos + 1 }) else (false, c)

structure VideoReader where
  cap : Cap
  start_frame : Int
  end_frame : Int
  current_frame : Int

/-- `VideoReader.__init__` after a successful open: `end_frame` falls back
to the metadata frame count whenever the argument is not positive, and a
positive `start_frame` seeks the capture and sets `current_frame`. -/
def VideoReader.init (cap0 : Cap) (start_frame end_frame : Int) : VideoReader :=
  { cap := if start_frame > 0 then { cap0 with pos := start_frame } else cap0
    start_frame := start_frame
    end_frame := if end_frame > 0 then end_frame else cap0.frame_count
    current_frame := if start_frame > 0 then start_frame else 0 }

/-- `VideoReader.__len__`. -/
def VideoReader.len (r : VideoReader) : Int :=
  r.end_frame - r.start_frame

/-- `VideoReader.__next__`: `none` models `StopIteration`; a yielded frame
is identified by its position in the capture. -/
def VideoReader.next (r : VideoReader) : Option (Int × VideoReader) :=
  if r.current_frame ≥ r.end_frame then none
  else
    let rc := r.cap.read
    if rc.1 then
      some (r.cap.pos, { r with cap := rc.2, current_frame := r.current_frame + 1 })
    else none

/-- Exhaust the iterator (fuel-bounded), collecting the yielded frames. -/
def VideoReader.drain : Nat → VideoReader → List Int
  | 0, _ => []
  | fuel + 1, r =>
    match r.next with
    | none => []
    | some fr => fr.1 :: VideoReader.drain fuel fr.2

/-! ### Shapes (lines 222–227, 314–322) -/

def input_shape (h w : Nat) : List Nat := [1, h, w, 3]

/-- `output_shape = [1, input_shape[1] * vsr_scale, input_shape[2] * vsr_scale, 3]`. -/
def output_shape (h w vsr_scale : Nat) : List Nat :=
  [1, (input_shape h w).getD 1 0 * vsr_scale, (input_shape h w).getD 2 0 * vsr_scale, 3]

/-- The frame size `(output_width, output_height)` passed to
`cv2.VideoWriter`, with `output_width = output_shape[2]` and
`output_height = output_shape[1]`. -/
def writerFrameSize (h w vsr_scale : Nat) : Nat × Nat :=
  ((output_shape h w vsr_scale).getD 2 0, (output_shape h w vsr_scale).getD 1 0)

/-! ### Early failure checks of `process_video` (lines 206–217, 324–325) -/

inductive VError where
  | noCheckpoint
  | cantOpenVideo (path : String)
  | cantReadFirstFrame (path : String)
  | cantOpenWriter (path : String)
deriving DecidableEq

/-- The `ValueError`-raising checks of `process_video`, in source order:
missing checkpoint path, `VideoReader.__init__` failing to open the input,
the first-frame read failing, and the video writer failing to open.  Each
raises immediately; there is no recovery or retry path. -/
def processVideoSetup (checkpoint_path : Option String)
    (input_video output_video : String)
    (videoOpens firstReadOk writerOpens : Bool) : Except VError Unit :=
  if checkpoint_path.isNone then .error .noCheckpoint
  else if !videoOpens then .error (.cantOpenVideo input_video)
  else if !firstReadOk then .error (.cantReadFirstFrame input_video)
  else if !writerOpens then .error (.cantOpenWriter output_video)
  else .ok ()

/-! ### Temp file and ffmpeg finishing sequence (lines 319–322, 368–376) -/

def temp_output_video (output_video : String) : String :=
  output_video ++ ".temp.mp4"

inductive FsOp where
  | create (path : String)
  | ffmpegEncode (src dst : String)
  | removeIfExists (path : String)
deriving DecidableEq

/-- The file-system actions of one successful run, in order: the writer is
opened on the temp path (frames are written there), then
`ffmpeg -i <temp> ... <output>` runs once, then the temp file is removed
(guarded by `os.path.exists`). -/
def videoFileOps (output_video : String) : List FsOp :=
  [.create (temp_output_video output_video),
   .ffmpegEncode (temp_output_video output_video) output_video,
   .removeIfExists (temp_output_video output_video)]

/-- Effect of one action on the set of files (as a duplicate-free list). -/
def applyOp (files : List String) : FsOp → List String
  | .create p => if p ∈ files then files else p :: files
  | .ffmpegEncode src dst =>
    if src ∈ files then (if dst ∈ files then files else dst :: files) else files
  | .removeIfExists p => files.erase p

def applyOps (files : List String) (ops : List FsOp) : List String :=
  ops.foldl applyOp files

def isFfmpegCall : FsOp → Bool
  | .ffmpegEncode _ _ => true
  | _ => false

/-! ### Frame normalization (line 105 and line 343) -/

/-- `frame[:, :, ::-1]` (`VideoReader.__next__`): reverse the channel axis
of an `h × w × c` frame. -/
def bgr2rgb (frame : List (List (List Nat))) : List (List (List Nat)) :=
  frame.map (fun row => row.map List.reverse)

/-- One 8-bit value divided by `255.0`. -/
def normPix (v : Nat) : ℚ := (v : ℚ) / 255

/-- `np.array([frame]).astype(np.float32) / 255.0`. -/
def normalizeFrame (frame : List (List (List Nat))) : List (List (List ℚ)) :=
  frame.map (fun row => row.map (fun pix => pix.map normPix))

/-- The tensor fed for a raw (BGR, uint8) frame from the capture. -/
def fedFrame (raw : List (List (List Nat))) : List (List (List ℚ)) :=
  normalizeFrame (bgr2rgb raw)

/-- All scalar entries of an `h × w × c` frame. -/
def frameVals {γ : Type} (f : List (List (List γ))) : List γ :=
  (f.flatMap id).flatMap id

/-! ### Output pixel conversion (line 357) -/

/-- `np.clip(a, lo, hi)`. -/
def npClip (x lo hi : ℚ) : ℚ := min (max x lo) hi

/-- Truncation toward zero, as a float→integer C cast does. -/
def qtrunc (x : ℚ) : Int := if x < 0 then -Int.floor (-x) else Int.floor x

/-- `astype(np.uint8)`: truncate, then wrap modulo 256. -/
def astypeUint8 (x : ℚ) : Nat := (qtrunc x % 256).toNat

/-- `np.clip(output_frame[0] * 255.0, 0, 255).astype(np.uint8)` for one
scalar model output `x`. -/
def outputPixel (x : ℚ) : Nat := astypeUint8 (npClip (x * 255) 0 255)

def isWrite : Ev → Bool
  | .write _ => true
  | _ => false

def isRead : Ev → Bool
  | .read _ => true
  | _ => false

/-! ### Structural lemmas about the frame loop -/

theorem runFrames_trace_eq {α β : Type} (m : Model α β) (fs : List α) :
    ∀ (i : Nat) (s : GraphState α β),
      (runFrames m i fs s).trace = (List.range' i fs.length).flatMap frameBlock := by
  induction fs with
  | nil => intro i s; simp [runFrames]
  | cons x xs ih => intro i s; simp [runFrames, List.range'_succ, ih]

theorem processLoop_trace_eq {α β : Type} (m : Model α β) (frames : List α) :
    (processLoop m frames).trace = loopTrace frames.length := by
  rw [processLoop, runFrames_trace_eq, loopTrace, List.range_eq_range']

theorem runFrames_outs_length {α β : Type} (m : Model α β) (fs : List α) :
    ∀ (i : Nat) (s : GraphState α β), (runFrames m i fs s).outs.length = fs.length := by
  induction fs with
  | nil => intro i s; simp [runFrames]
  | cons x xs ih => intro i s; simp [runFrames, ih]

theorem runFrames_written_eq {α β : Type} (m : Model α β) (fs : List α) :
    ∀ (i : Nat) (s : GraphState α β),
      (runFrames m i fs s).written = (runFrames m i fs s).outs.drop (5 - i) := by
  induction fs with
  | nil => intro i s; simp [runFrames]
  | cons x xs ih =>
    intro i s
    by_cases h : 5 ≤ i
    · have h5 : 5 - i = 0 := by omega
      have h5' : 5 - (i + 1) = 0 := by omega
      simp [runFrames, h, h5, h5', ih]
    · have h5 : 5 - i = (5 - (i + 1)) + 1 := by omega
      simp only [runFrames, if_neg h, List.nil_append]
      rw [ih (i + 1), h5]
      simp

theorem loopTrace_succ (n : Nat) :
    loopTrace (n + 1) = loopTrace n ++ frameBlock n := by
  rw [loopTrace, List.range_succ, List.flatMap_append, loopTrace]
  simp

theorem count_write_frameBlock (i j : Nat) :
    (frameBlock j).count (Ev.write i) = if j = i ∧ 5 ≤ j then 1 else 0 := by
  by_cases h0 : j = 0 <;> by_cases h5 : 5 ≤ j <;>
    simp [frameBlock, h0, h5, List.count_cons, List.count_append]

theorem count_write_loopTrace (n i : Nat) :
    (loopTrace n).count (Ev.write i) = if 5 ≤ i ∧ i < n then 1 else 0 := by
  induction n with
  | zero => simp [loopTrace]
  | succ k ih =>
    rw [loopTrace_succ, List.count_append, ih, count_write_frameBlock]
    split_ifs <;> omega

theorem count_runOutputs_frameBlock (i j : Nat) :
    (frameBlock j).count (Ev.runOutputs i) = if j = i then 1 else 0 := by
  by_cases h0 : j = 0 <;> by_cases h5 : 5 ≤ j <;>
    simp [frameBlock, h0, h5, List.count_cons, List.count_append]

theorem count_runOutputs_loopTrace (n i : Nat) :
    (loopTrace n).count (Ev.runOutputs i) = if i < n then 1 else 0 := by
  induction n with
  | zero => simp [loopTrace]
  | succ k ih =>
    rw [loopTrace_succ, List.count_append, ih, count_runOutputs_frameBlock]
    split_ifs <;> omega

theorem runBefore_zero_not_mem_frameBlock (j : Nat) :
    Ev.runBefore 0 ∉ frameBlock j := by
  by_cases h0 : j = 0 <;> by_cases h5 : 5 ≤ j <;>
    simp [frameBlock, h0, h5] <;> omega

theorem runBefore_zero_not_mem (n : Nat) : Ev.runBefore 0 ∉ loopTrace n := by
  induction n with
  | zero => simp [loopTrace]
  | succ k ih =>
    rw [loopTrace_succ]
    simp only [List.mem_append]
    exact fun h => h.elim ih (runBefore_zero_not_mem_frameBlock k)

theorem buildGraph_not_mem (n : Nat) : Ev.buildGraph ∉ loopTrace n := by
  induction n with
  | zero => simp [loopTrace]
  | succ k ih =>
    rw [loopTrace_succ]
    simp only [List.mem_append]
    intro h
    rcases h with h | h
    · exact ih h
    · by_cases h0 : k = 0 <;> by_cases h5 : 5 ≤ k <;>
        simp [frameBlock, h0, h5] at h

theorem loopTrace_decomp (i n : Nat) (h : i < n) :
    ∃ t, loopTrace n = loopTrace i ++ (frameBlock i ++ t) := by
  induction n with
  | zero => omega
  | succ k ih =>
    rcases Nat.lt_succ_iff_lt_or_eq.mp h with h' | h'
    · obtain ⟨t, ht⟩ := ih h'
      exact ⟨t ++ frameBlock k, by rw [loopTrace_succ, ht]; simp⟩
    · subst h'
      exact ⟨[], by rw [loopTrace_succ]; simp⟩

theorem runBefore_precedes_runOutputs (i n : Nat) (h0 : 0 < i) (h : i < n) :
    ∃ t u, loopTrace n = t ++ Ev.runBefore i :: Ev.runOutputs i :: u := by
  obtain ⟨t, ht⟩ := loopTrace_decomp i n h
  refine ⟨loopTrace i ++ [Ev.read i], (if 5 ≤ i then [Ev.write i] else []) ++ t, ?_⟩
  rw [ht, frameBlock]
  have hne : i ≠ 0 := by omega
  simp [hne]

theorem filter_write_frameBlock (j : Nat) :
    (frameBlock j).filter isWrite = if 5 ≤ j then [Ev.write j] else [] := by
  by_cases h0 : j = 0 <;> by_cases h5 : 5 ≤ j <;>
    simp [frameBlock, h0, h5, isWrite]

theorem filter_write_loopTrace (n : Nat) :
    (loopTrace n).filter isWrite = (List.range' 5 (n - 5)).map Ev.write := by
  induction n with
  | zero => simp [loopTrace]
  | succ k ih =>
    rw [loopTrace_succ, List.filter_append, ih, filter_write_frameBlock]
    by_cases h5 : 5 ≤ k
    · have hk : k + 1 - 5 = (k - 5) + 1 := by omega
      have h55 : 5 + 1 * (k - 5) = k := by omega
      rw [hk, List.range'_concat, h55]
      simp [h5]
    · have hk : k + 1 - 5 = 0 := by omega
      have hk' : k - 5 = 0 := by omega
      simp [h5, hk, hk']

theorem filter_read_frameBlock (j : Nat) :
    (frameBlock j).filter isRead = [Ev.read j] := by
  by_cases h0 : j = 0 <;> by_cases h5 : 5 ≤ j <;>
    simp [frameBlock, h0, h5, isRead]

theorem filter_read_loopTrace (n : Nat) :
    (loopTrace n).filter isRead = (List.range n).map Ev.read := by
  induction n with
  | zero => simp [loopTrace]
  | succ k ih =>
    rw [loopTrace_succ, List.filter_append, ih, filter_read_frameBlock,
      List.range_succ]
    simp

theorem processLoop_first_out {α β : Type} (m : Model α β) (x : α) (xs : List α) :
    (processLoop m (x :: xs)).outs.head? = some (m.generator x m.zeroHR) := by
  simp [processLoop, runFrames, run_outputs, initState]

theorem processLoop_second_out {α β : Type} (m : Model α β) (x y : α) (xs : List α) :
    (processLoop m (x :: y :: xs)).outs[1]? =
      some (m.generator y (m.flowWarp x y (m.generator x m.zeroHR))) := by
  simp [processLoop, runFrames, run_outputs, initState, before_ops]

theorem mem_frameVals {γ : Type} {v : γ} {f : List (List (List γ))} :
    v ∈ frameVals f ↔ ∃ row ∈ f, ∃ pix ∈ row, v ∈ pix := by
  simp only [frameVals, List.mem_flatMap, id_eq]
  constructor
  · rintro ⟨pix, ⟨row, hrow, hpix⟩, hv⟩
    exact ⟨row, hrow, pix, hpix, hv⟩
  · rintro ⟨row, hrow, pix, hpix, hv⟩
    exact ⟨pix, ⟨row, hrow, hpix⟩, hv⟩

theorem frameVals_fedFrame_mem {raw : List (List (List Nat))} {q : ℚ}
    (hq : q ∈ frameVals (fedFrame raw)) :
    ∃ v ∈ frameVals raw, q = normPix v := by
  rw [mem_frameVals] at hq
  obtain ⟨row, hrow, pix, hpix, hq⟩ := hq
  rw [fedFrame, normalizeFrame, List.mem_map] at hrow
  obtain ⟨rowR, hrowR, rfl⟩ := hrow
  rw [List.mem_map] at hpix
  obtain ⟨pixR, hpixR, rfl⟩ := hpix
  rw [List.mem_map] at hq
  obtain ⟨v, hv, rfl⟩ := hq
  rw [bgr2rgb, List.mem_map] at hrowR
  obtain ⟨row0, hrow0, rfl⟩ := hrowR
  rw [List.mem_map] at hpixR
  obtain ⟨pix0, hpix0, rfl⟩ := hpixR
  rw [List.mem_reverse] at hv
  exact ⟨v, mem_frameVals.mpr ⟨row0, hrow0, pix0, hpix0, hv⟩, rfl⟩

/-- A concrete instantiation of the abstract networks, used to evaluate the
loop theorems on explicit inputs. -/
def natModel : Model Nat Nat where
  generator := fun x w => x + 2 * w
  flowWarp := fun a b g => a + 3 * b + 5 * g
  zeroLR := 0
  zeroHR := 0

/-! ### The claims -/

/-- Claim C1: the claim fails on the code.  The restore map is built with
`re.match(v.name, '.*global_step.*')` — the variable *name* is passed as
the pattern and the global-step pattern as the subject — so even a
trainable variable literally named `global_step:0` fails the test and is
mapped to `global_step/ExponentialMovingAverage`, whereas matching the
name against the global-step pattern (the claim's reading, and the evident
intent) would map it to its own stripped name `global_step`. -/
theorem claim_C1_restore_map_global_step :
    restoreKey "global_step:0" = "global_step/ExponentialMovingAverage" ∧
    restoreKeyIntended "global_step:0" = "global_step" ∧
    restoreKey "global_step:0" ≠ restoreKeyIntended "global_step:0" ∧
    restore_vars_dict ["generator/conv_1/kernel:0", "global_step:0"] =
      [("generator/conv_1/kernel/ExponentialMovingAverage", "generator/conv_1/kernel:0"),
       ("global_step/ExponentialMovingAverage", "global_step:0")] := by
  refine ⟨by decide, by decide, by decide, by decide⟩

/-- Claim C2: exactly `max(0, n − 5)` frames are written; every frame with
loop index `< 5` is run through the model but never written; every frame
with index `≥ 5` is written exactly once. -/
theorem claim_C2_written_frames {α β : Type} (m : Model α β) (frames : List α) :
    ((processLoop m frames).written.length : Int) =
      max 0 ((frames.length : Int) - 5) ∧
    (∀ i, i < 5 → (processLoop m frames).trace.count (Ev.write i) = 0) ∧
    (∀ i, i < frames.length →
      (processLoop m frames).trace.count (Ev.runOutputs i) = 1) ∧
    (∀ i, 5 ≤ i → i < frames.length →
      (processLoop m frames).trace.count (Ev.write i) = 1) := by
  refine ⟨?_, ?_, ?_, ?_⟩
  · rw [processLoop, runFrames_written_eq]
    rw [List.length_drop, runFrames_outs_length]
    rw [Int.max_def]
    split_ifs <;> omega
  · intro i h5
    rw [processLoop_trace_eq, count_write_loopTrace, if_neg (by omega)]
  · intro i h
    rw [processLoop_trace_eq, count_runOutputs_loopTrace, if_pos h]
  · intro i h5 h
    rw [processLoop_trace_eq, count_write_loopTrace, if_pos ⟨h5, h⟩]

/-- Witness for C2 on a 7-frame video: 2 frames written, frame 0 run but
never written, frame 5 written once. -/
theorem claim_C2_witness :
    ((processLoop natModel [1, 2, 3, 4, 5, 6, 7]).written.length : Int) =
      max 0 ((([1, 2, 3, 4, 5, 6, 7] : List Nat).length : Int) - 5) ∧
    (processLoop natModel [1, 2, 3, 4, 5, 6, 7]).trace.count (Ev.write 0) = 0 ∧
    (processLoop natModel [1, 2, 3, 4, 5, 6, 7]).trace.count (Ev.runOutputs 0) = 1 ∧
    (processLoop natModel [1, 2, 3, 4, 5, 6, 7]).trace.count (Ev.write 5) = 1 :=
  ⟨(claim_C2_written_frames natModel [1, 2, 3, 4, 5, 6, 7]).1,
   (claim_C2_written_frames natModel [1, 2, 3, 4, 5, 6, 7]).2.1 0 (by decide),
   (claim_C2_written_frames natModel [1, 2, 3, 4, 5, 6, 7]).2.2.1 0 (by decide),
   (claim_C2_written_frames natModel [1, 2, 3, 4, 5, 6, 7]).2.2.2 5 (by decide) (by decide)⟩

/-- Claim C3: no warp update is executed for the first frame (the
generator sees the zero-initialized warp state), and for every frame with
index `i > 0` the warp update (`before_ops`) is executed immediately
before that frame's generator run. -/
theorem claim_C3_warp_before_generate {α β : Type} (m : Model α β) (frames : List α) :
    Ev.runBefore 0 ∉ processVideoTrace m frames ∧
    (∀ i, 0 < i → i < frames.length →
      ∃ t u, (processLoop m frames).trace = t ++ Ev.runBefore i :: Ev.runOutputs i :: u) ∧
    (∀ x xs, frames = x :: xs →
      (processLoop m frames).outs.head? = some (m.generator x m.zeroHR)) ∧
    (∀ x y xs, frames = x :: y :: xs →
      (processLoop m frames).outs[1]? =
        some (m.generator y (m.flowWarp x y (m.generator x m.zeroHR)))) := by
  refine ⟨?_, ?_, ?_, ?_⟩
  · rw [processVideoTrace]
    intro h
    rcases List.mem_cons.mp h with h | h
    · exact Ev.noConfusion h
    · rw [processLoop_trace_eq] at h
      exact runBefore_zero_not_mem _ h
  · intro i h0 h
    rw [processLoop_trace_eq]
    exact runBefore_precedes_runOutputs i _ h0 h
  · intro x xs hf
    subst hf
    exact processLoop_first_out m x xs
  · intro x y xs hf
    subst hf
    exact processLoop_second_out m x y xs

/-- Witness for C3 on a two-frame video with the concrete model. -/
theorem claim_C3_witness :
    Ev.runBefore 0 ∉ processVideoTrace natModel [7, 9] ∧
    (∃ t u, (processLoop natModel [7, 9]).trace =
      t ++ Ev.runBefore 1 :: Ev.runOutputs 1 :: u) ∧
    (processLoop natModel [7, 9]).outs.head? =
      some (natModel.generator 7 natModel.zeroHR) ∧
    (processLoop natModel [7, 9]).outs[1]? =
      some (natModel.generator 9 (natModel.flowWarp 7 9 (natModel.generator 7 natModel.zeroHR))) :=
  ⟨(claim_C3_warp_before_generate natModel [7, 9]).1,
   (claim_C3_warp_before_generate natModel [7, 9]).2.1 1 (by decide) (by decide),
   (claim_C3_warp_before_generate natModel [7, 9]).2.2.1 7 [9] rfl,
   (claim_C3_warp_before_generate natModel [7, 9]).2.2.2 7 9 [] rfl⟩

/-- Claim C4: the output shape is `[1, h*vsr_scale, w*vsr_scale, 3]` and
the writer is opened with frame size `(w*vsr_scale, h*vsr_scale)`. -/
theorem claim_C4_upscaled_shapes (h w vsr_scale : Nat) :
    input_shape h w = [1, h, w, 3] ∧
    output_shape h w vsr_scale = [1, h * vsr_scale, w * vsr_scale, 3] ∧
    writerFrameSize h w vsr_scale = (w * vsr_scale, h * vsr_scale) :=
  ⟨rfl, rfl, rfl⟩

/-- Claim C5: processing is strictly sequential: the trace is the
concatenation of the per-frame blocks in index order (each frame is read
and fully processed before the next read); the reads occur in order
`0, 1, …`; the writes occur in increasing index order `5, 6, …`; and the
written list is the output list with its first five entries dropped, so
write order equals read order. -/
theorem claim_C5_sequential {α β : Type} (m : Model α β) (frames : List α) :
    (processLoop m frames).trace = (List.range frames.length).flatMap frameBlock ∧
    (processLoop m frames).trace.filter isRead =
      (List.range frames.length).map Ev.read ∧
    (processLoop m frames).trace.filter isWrite =
      (List.range' 5 (frames.length - 5)).map Ev.write ∧
    (processLoop m frames).written = (processLoop m frames).outs.drop 5 := by
  refine ⟨?_, ?_, ?_, ?_⟩
  · rw [processLoop_trace_eq, loopTrace]
  · rw [processLoop_trace_eq, filter_read_loopTrace]
  · rw [processLoop_trace_eq, filter_write_loopTrace]
  · rw [processLoop, runFrames_written_eq]

/-- Claim C6: `process_video` signals each of the four failure conditions
by raising `ValueError`, in source order, with no recovery path: a run
reaches the session if and only if none of the conditions holds. -/
theorem claim_C6_error_cases (c iv ov : String) (vo fr wo : Bool) :
    processVideoSetup none iv ov vo fr wo = .error .noCheckpoint ∧
    processVideoSetup (some c) iv ov false fr wo = .error (.cantOpenVideo iv) ∧
    processVideoSetup (some c) iv ov true false wo = .error (.cantReadFirstFrame iv) ∧
    processVideoSetup (some c) iv ov true true false = .error (.cantOpenWriter ov) ∧
    processVideoSetup (some c) iv ov true true true = .ok () ∧
    ((∃ e, processVideoSetup (some c) iv ov vo fr wo = .error e) ↔
      vo = false ∨ fr = false ∨ wo = false) := by
  refine ⟨rfl, rfl, rfl, rfl, rfl, ?_⟩
  cases vo <;> cases fr <;> cases wo <;> simp [processVideoSetup]

/-- Claim C7: frames are written to `output_video + '.temp.mp4'`; the
finishing sequence invokes ffmpeg exactly once, on the temp file, and then
removes the temp file, so only the final output remains. -/
theorem claim_C7_temp_file_then_ffmpeg (out : String) :
    temp_output_video out = out ++ ".temp.mp4" ∧
    videoFileOps out = [.create (temp_output_video out),
      .ffmpegEncode (temp_output_video out) out,
      .removeIfExists (temp_output_video out)] ∧
    (videoFileOps out).countP isFfmpegCall = 1 ∧
    applyOps [] (videoFileOps out) = [out] := by
  have hne : out ≠ temp_output_video out := by
    intro h
    have hlen := congrArg String.length h
    rw [temp_output_video, String.length_append] at hlen
    simp at hlen
    have h9 : ".temp.mp4".length = 9 := rfl
    omega
  have h1 : applyOp [] (FsOp.create (temp_output_video out)) =
      [temp_output_video out] := by
    simp [applyOp]
  have h2 : applyOp [temp_output_video out]
      (FsOp.ffmpegEncode (temp_output_video out) out) =
      [out, temp_output_video out] := by
    simp [applyOp, hne]
  have h3 : applyOp [out, temp_output_video out]
      (FsOp.removeIfExists (temp_output_video out)) = [out] := by
    simp [applyOp, List.erase_cons, hne]
  refine ⟨rfl, rfl, rfl, ?_⟩
  rw [applyOps, videoFileOps, List.foldl_cons, h1, List.foldl_cons, h2,
    List.foldl_cons, h3, List.foldl_nil]

/-- Claim C8: the fed tensor is the raw frame with its channel axis
reversed and every value divided by 255; for 8-bit inputs every fed value
lies in `[0, 1]`; and the graph is built exactly once, before the frame
loop. -/
theorem claim_C8_fed_tensor {α β : Type} (m : Model α β) (frames : List α)
    (raw : List (List (List Nat))) (hb : ∀ v ∈ frameVals raw, v ≤ 255) :
    fedFrame raw = raw.map
      (fun row => row.map (fun pix => pix.reverse.map normPix)) ∧
    (∀ q ∈ frameVals (fedFrame raw), 0 ≤ q ∧ q ≤ 1) ∧
    (processVideoTrace m frames).head? = some Ev.buildGraph ∧
    (processVideoTrace m frames).count Ev.buildGraph = 1 := by
  refine ⟨?_, ?_, rfl, ?_⟩
  · simp [fedFrame, normalizeFrame, bgr2rgb, List.map_map, Function.comp]
  · intro q hq
    obtain ⟨v, hv, rfl⟩ := frameVals_fedFrame_mem hq
    have hv255 : v ≤ 255 := hb v hv
    rw [normPix]
    refine ⟨by positivity, ?_⟩
    rw [div_le_one (by norm_num)]
    exact_mod_cast hv255
  · rw [processVideoTrace, List.count_cons, processLoop_trace_eq,
      List.count_eq_zero.mpr (buildGraph_not_mem _)]
    simp

/-- Witness for C8 on a concrete 1×1 BGR frame `[1, 2, 3]`. -/
theorem claim_C8_witness :
    fedFrame [[[1, 2, 3]]] = [[[1, 2, 3]]].map
      (fun row => row.map (fun pix => pix.reverse.map normPix)) ∧
    (∀ q ∈ frameVals (fedFrame [[[1, 2, 3]]]), 0 ≤ q ∧ q ≤ 1) ∧
    (processVideoTrace natModel [4]).head? = some Ev.buildGraph ∧
    (processVideoTrace natModel [4]).count Ev.buildGraph = 1 :=
  claim_C8_fed_tensor natModel [4] [[[1, 2, 3]]] (by decide)

/-- Claim C9: the scaled model output is clipped to `[0, 255]` before the
uint8 cast, so the cast never wraps: the stored value equals the plain
truncation of the clipped value and is at most 255, for every rational
model output. -/
theorem claim_C9_output_range (x : ℚ) :
    0 ≤ npClip (x * 255) 0 255 ∧
    npClip (x * 255) 0 255 ≤ 255 ∧
    (outputPixel x : Int) = qtrunc (npClip (x * 255) 0 255) ∧
    outputPixel x ≤ 255 := by
  have h0 : 0 ≤ npClip (x * 255) 0 255 :=
    le_min (le_max_right _ _) (by norm_num)
  have h255 : npClip (x * 255) 0 255 ≤ 255 := min_le_right _ _
  have htr : qtrunc (npClip (x * 255) 0 255) = Int.floor (npClip (x * 255) 0 255) := by
    rw [qtrunc, if_neg (not_lt.mpr h0)]
  have hf0 : 0 ≤ Int.floor (npClip (x * 255) 0 255) := Int.floor_nonneg.mpr h0
  have hf255 : Int.floor (npClip (x * 255) 0 255) ≤ 255 := by
    have h := Int.floor_le_floor h255
    simpa using h
  have hm : qtrunc (npClip (x * 255) 0 255) % 256 = qtrunc (npClip (x * 255) 0 255) := by
    rw [htr]
    exact Int.emod_eq_of_lt hf0 (by omega)
  refine ⟨h0, h255, ?_, ?_⟩
  · rw [outputPixel, astypeUint8, hm, htr]
    exact Int.toNat_of_nonneg hf0
  · rw [outputPixel, astypeUint8, hm, htr]
    omega

/-- Claim C10: `VideoReader` substitutes the metadata frame count for
every `end_frame ≤ 0`; its iterator stops exactly when
`current_frame ≥ end_frame` or the read fails; `len` is
`end_frame − start_frame`, and on a capture whose metadata count (10)
exceeds its decodable frames (3) the length exceeds the frames yielded. -/
theorem claim_C10_reader_bounds (cap0 : Cap) (s e : Int) (r : VideoReader) :
    (e ≤ 0 → (VideoReader.init cap0 s e).end_frame = cap0.frame_count) ∧
    (r.next = none ↔ (r.end_frame ≤ r.current_frame ∨ (r.cap.read).1 = false)) ∧
    r.len = r.end_frame - r.start_frame ∧
    ((VideoReader.init ⟨10, 3, 0⟩ 0 (-1)).len = 10 ∧
      (VideoReader.drain 20 (VideoReader.init ⟨10, 3, 0⟩ 0 (-1))).length = 3) := by
  refine ⟨?_, ?_, rfl, by decide⟩
  · intro he
    rw [VideoReader.init]
    exact if_neg (by omega)
  · rw [VideoReader.next]
    by_cases h : r.current_frame ≥ r.end_frame
    · simp [h]
    · by_cases hr : (r.cap.read).1
      · simp [h, hr]
      · simp [h, hr]

/-- Witness for C10: `end_frame = -2` (not only `-1`) also falls back to
the metadata count, and a reader advertising 10 frames yields only 3. -/
theorem claim_C10_witness :
    (VideoReader.init ⟨10, 3, 0⟩ 0 (-2)).end_frame = 10 ∧
    ((VideoReader.init ⟨10, 3, 0⟩ 0 (-1)).len = 10 ∧
      (VideoReader.drain 20 (VideoReader.init ⟨10, 3, 0⟩ 0 (-1))).length = 3) :=
  ⟨(claim_C10_reader_bounds ⟨10, 3, 0⟩ 0 (-2)
      (VideoReader.init ⟨10, 3, 0⟩ 0 (-2))).1 (by decide),
   (claim_C10_reader_bounds ⟨10, 3, 0⟩ 0 (-1)
      (VideoReader.init ⟨10, 3, 0⟩ 0 (-1))).2.2.2⟩

end VSR
